import Mathlib

/-!
Verification of the ublox fuzz-generation and frame-codec components.

Byte values are modelled as `Nat` with explicit `% 256` wrapping; 16-bit
quantities wrap with `% 65536`.  A payload is a `List Nat` of its bytes.
-/

/-! ## Frame Codec: the shared checksum helper
(`src/ublox/src/ubx_packets/fuzz_helpers.rs`, `calculate_checksum`) -/

/-- The accumulation loop of `calculate_checksum`: for each byte,
`ck_a = ck_a.wrapping_add(byte); ck_b = ck_b.wrapping_add(ck_a)`. -/
def ckLoop : Nat → Nat → List Nat → Nat × Nat
  | a, b, [] => (a, b)
  | a, b, byte :: rest => ckLoop ((a + byte) % 256) ((b + (a + byte) % 256) % 256) rest

/-- `calculate_checksum` from `fuzz_helpers.rs`: the loop runs over
class, id, the two little-endian bytes of `payload.len() as u16`, then the
payload bytes. -/
def calculate_checksum (cls msgId : Nat) (payload : List Nat) : Nat × Nat :=
  ckLoop 0 0 ([cls, msgId, payload.length % 65536 % 256, payload.length % 65536 / 256] ++ payload)

/-- `build_ubx_frame` from `fuzz_helpers.rs`: sync bytes, class, id,
little-endian `u16` length, payload, then the two checksum bytes. -/
def build_ubx_frame (cls msgId : Nat) (payload : List Nat) : List Nat :=
  [0xB5, 0x62, cls, msgId, payload.length % 65536 % 256, payload.length % 65536 / 256] ++
    payload ++
    [(calculate_checksum cls msgId payload).1, (calculate_checksum cls msgId payload).2]

/-! ## The standalone checksum and frame builder of the generated test files
(`src/codegen/generated/tests/fuzz_mon_rxbuf.rs` and its four siblings) -/

/-- `calculate_checksum` from the generated test files: a single fold of the
two wrapping accumulators over an externally assembled byte sequence. -/
def tests_calculate_checksum (data : List Nat) : Nat × Nat :=
  data.foldl (fun ck byte => ((ck.1 + byte) % 256, (ck.2 + (ck.1 + byte) % 256) % 256)) (0, 0)

/-- The `frame_core` assembled by the generated test builders: class, id,
little-endian `u16` length, payload. -/
def test_frame_core (cls msgId : Nat) (payload : List Nat) : List Nat :=
  cls :: msgId :: payload.length % 65536 % 256 :: payload.length % 65536 / 256 :: payload

/-- The frame builder of the generated test files (`build_mon_rxbuf_frame`
and its siblings): sync bytes, `frame_core`, checksum of `frame_core`. -/
def build_test_frame (cls msgId : Nat) (payload : List Nat) : List Nat :=
  [0xB5, 0x62] ++ test_frame_core cls msgId payload ++
    [(tests_calculate_checksum (test_frame_core cls msgId payload)).1,
     (tests_calculate_checksum (test_frame_core cls msgId payload)).2]

/-! ## Claim-side (specification) description of the checksum -/

/-- The byte sequence the spec says is checksummed: class, id,
length-low-byte, length-high-byte, then every payload byte, in that order.
Sync bytes do not appear. -/
def checksummedBytes (cls msgId : Nat) (payload : List Nat) : List Nat :=
  [cls, msgId, payload.length % 256, payload.length / 256 % 256] ++ payload

/-- Spec-side `ck_a`: the wrapping 8-bit sum of every checksummed byte. -/
def ckaSpec (seq : List Nat) : Nat := seq.sum % 256

/-- Spec-side `ck_b`: the wrapping 8-bit sum of the running `ck_a` after each
byte, i.e. of the wrapping sums of the nonempty prefixes of the sequence. -/
def ckbSpec (seq : List Nat) : Nat :=
  ((seq.inits.tail).map (fun pre => pre.sum % 256)).sum % 256

/-- The sequence of running `ck_a` values produced when the loop starts with
`ck_a = a % 256` and consumes the given bytes: one entry per byte. -/
def runningA (a : Nat) : List Nat → List Nat
  | [] => []
  | x :: xs => (a + x) % 256 :: runningA (a + x) xs

/-- The length field of a frame as a reader sees it: the little-endian `u16`
at offsets 4 and 5. -/
def lenField (fr : List Nat) : Nat := fr.getD 4 0 + 256 * fr.getD 5 0

/-- Modelled from the spec: the Frame Codec `decode_frame` of §4.4 is not
under `src/` (only its callers and the schema declarations are), so its
success path is modelled from the spec's words — verify the two sync bytes,
read class, id and the little-endian length, require `length` payload bytes
plus two checksum bytes, recompute the checksum over the bytes at offsets
2..6+len and compare it with the two checksum bytes, and return class, id
and the payload slice. -/
def decode_frame (bs : List Nat) : Option (Nat × Nat × List Nat) :=
  if bs.getD 0 0 = 0xB5 ∧ bs.getD 1 0 = 0x62 ∧
      8 + (bs.getD 4 0 + 256 * bs.getD 5 0) ≤ bs.length ∧
      (bs.drop (6 + (bs.getD 4 0 + 256 * bs.getD 5 0))).take 2 =
        [(ckLoop 0 0 ((bs.drop 2).take (4 + (bs.getD 4 0 + 256 * bs.getD 5 0)))).1,
         (ckLoop 0 0 ((bs.drop 2).take (4 + (bs.getD 4 0 + 256 * bs.getD 5 0)))).2] then
    some (bs.getD 2 0, bs.getD 3 0, (bs.drop 6).take (bs.getD 4 0 + 256 * bs.getD 5 0))
  else none

/-! ## MON-RXBUF (`src/codegen/generated/packets/mon_rxbuf.rs`,
`src/codegen/generated/tests/fuzz_mon_rxbuf.rs`) -/

/-- `ExpectedMonRxbuf::to_bytes`: six little-endian `u16` "pending" values,
then the six "usage" bytes, then the six "peak_usage" bytes. -/
def monRxbufToBytes (pending usage peak : List Nat) : List Nat :=
  (pending.map (fun v => [v % 256, v / 256 % 256])).flatten ++ usage ++ peak

/-- `build_mon_rxbuf_frame`: the generated-test frame builder at
class 0x0A, id 0x07. -/
def build_mon_rxbuf_frame (pending usage peak : List Nat) : List Nat :=
  build_test_frame 0x0A 0x07 (monRxbufToBytes pending usage peak)

/-- Modelled from the spec: the Field Codec decode of §4.3 for the MON-RXBUF
schema (class 0x0A, id 0x07, fixed length 24: `pending: [u16; 6]` at offset
0, `usage: [u8; 6]` at offset 12, `peak_usage: [u8; 6]` at offset 18) — the
derive-generated accessors are not under `src/`.  Each field is read at its
computed offset, little-endian; a payload of the wrong size fails. -/
def decodeMonRxbuf (p : List Nat) : Option (List Nat × List Nat × List Nat) :=
  match p with
  | [b0, b1, b2, b3, b4, b5, b6, b7, b8, b9, b10, b11,
     u0, u1, u2, u3, u4, u5, k0, k1, k2, k3, k4, k5] =>
      some ([b0 + 256 * b1, b2 + 256 * b3, b4 + 256 * b5,
             b6 + 256 * b7, b8 + 256 * b9, b10 + 256 * b11],
            [u0, u1, u2, u3, u4, u5], [k0, k1, k2, k3, k4, k5])
  | _ => none

/-! ## The fuzz-strategy generator
(`src/ublox_derive/src/output/gen_fuzz_code.rs`).

The generator is a macro emitting Rust code; what is embedded here is the
value-level semantics of the code it emits for each schema shape: which
per-field value generator each strategy uses, and how generated field values
are serialized into payload bytes. -/

/-- A field's raw storage type as the generator sees it (the `syn::Type` of
the struct field): a fixed-width scalar, a fixed-size array, or an
unrecognized type name (which the generator handles by a 1-byte fallback). -/
inductive UbxTy
  | u8 | i8 | u16 | i16 | u32 | i32 | u64 | i64 | f32 | f64
  | arr (elem : UbxTy) (n : Nat)
  | unknown
  deriving DecidableEq

/-- The declared byte width of a field per the schema (floats count by their
bit-pattern width; the generator's fallback types serialize one byte). -/
def UbxTy.declWidth : UbxTy → Nat
  | .u8 | .i8 | .unknown => 1
  | .u16 | .i16 => 2
  | .u32 | .i32 | .f32 => 4
  | .u64 | .i64 | .f64 => 8
  | .arr e n => n * e.declWidth

/-- The number of payload bytes the generated strategy/serializer pair
actually produces for a field: full width for scalars, but only `n` bytes
for any array `[T; n]` (the generator emits `any::<[u8; n]>()` for non-`u8`
element types and `extend_from_slice` serializes the generated bytes). -/
def UbxTy.genWidth : UbxTy → Nat
  | .arr _ n => n
  | t => t.declWidth

def UbxTy.isArr : UbxTy → Bool
  | .arr _ _ => true
  | _ => false

/-- A generated field value: a scalar's numeric bit pattern, or the byte
contents of a generated array. -/
inductive FieldVal
  | scalar (v : Nat)
  | arr (bs : List Nat)
  deriving DecidableEq

/-- Well-typedness of a generated value for a raw type: scalars carry a bit
pattern below `2^(8·width)`, arrays are byte lists of the right length
(the generated array values are always byte arrays). -/
def hasTy : FieldVal → UbxTy → Bool
  | .scalar _, .arr _ _ => false
  | .scalar v, t => decide (v < 2 ^ (8 * t.declWidth))
  | .arr bs, .arr .u8 n => bs.length == n && bs.all (fun b => b < 256)
  | .arr _, _ => false

/-- Little-endian bytes of a value over `w` bytes. -/
def leBytes (w v : Nat) : List Nat := (List.range w).map (fun k => v / 256 ^ k % 256)

/-- The serializer the generator emits per raw type
(`generate_serializer_for_type`): `push(v as u8)` for 1-byte types and
unknown types, `extend_from_slice(&v.to_le_bytes())` for wider scalars,
`extend_from_slice(&v)` for arrays. -/
def serializeField : UbxTy → FieldVal → List Nat
  | .u8, .scalar v => [v % 256]
  | .i8, .scalar v => [v % 256]
  | .u16, .scalar v => leBytes 2 v
  | .i16, .scalar v => leBytes 2 v
  | .u32, .scalar v => leBytes 4 v
  | .i32, .scalar v => leBytes 4 v
  | .u64, .scalar v => leBytes 8 v
  | .i64, .scalar v => leBytes 8 v
  | .f32, .scalar v => leBytes 4 v
  | .f64, .scalar v => leBytes 8 v
  | .unknown, .scalar v => [v % 256]
  | .arr _ _, .arr bs => bs
  | _, _ => []

/-- The emitted payload body: each field serialized at its position, in
declaration order (`#(#field_serializers)*`). -/
def serializeFields : List UbxTy → List FieldVal → List Nat
  | t :: ts, v :: vs => serializeField t v ++ serializeFields ts vs
  | _, _ => []

/-- The `map_type` attached to a field: the mapped type's last path-segment
name and generic-argument flag (what `is_simple_enum_type` inspects), plus
the `valid_raw_values()` of its `UbxEnumFuzzable` impl. -/
structure MapDesc where
  tyName : List Char
  hasGenericArgs : Bool
  valid_raw_values : List Nat
  deriving DecidableEq

/-- A schema field as the generator sees it: raw storage type and optional
enum mapping. -/
structure PackField where
  ty : UbxTy
  mapTy : Option MapDesc
  deriving DecidableEq

/-- Declared payload length of a schema. -/
inductive PayloadLen
  | fixedLen (n : Nat)
  | maxLen (n : Nat)
  deriving DecidableEq

/-- The length the generator uses as payload capacity for either case. -/
def PayloadLen.resolved : PayloadLen → Nat
  | .fixedLen n => n
  | .maxLen n => n

/-- A packet description: class, id, declared length, ordered fields. -/
structure PackDesc where
  msgClass : Nat
  msgId : Nat
  payloadLen : PayloadLen
  fields : List PackField

def listStartsWith : List Char → List Char → Bool
  | [], _ => true
  | _ :: _, [] => false
  | a :: as, b :: bs => a == b && listStartsWith as bs

def listEndsWith (p s : List Char) : Bool := listStartsWith p.reverse s.reverse

def listHasSegment (p : List Char) : List Char → Bool
  | [] => p.isEmpty
  | c :: rest => listStartsWith p (c :: rest) || listHasSegment p rest

def primTypeNames : List (List Char) :=
  ["u8", "u16", "u32", "u64", "i8", "i16", "i32", "i64", "f32", "f64", "bool"].map
    String.toList

def excludedSuffixes : List (List Char) :=
  ["Flags", "Iter", "Status", "Error", "Info", "Data", "Config", "Settings"].map
    String.toList

def enumSuffixes : List (List Char) :=
  ["Type", "Mode", "Source", "Power"].map String.toList

/-- `is_simple_enum_type`: the generator's naming heuristic — no generic
arguments, not a primitive name, no excluded suffix, and either a
whitelisted suffix or "Fix" somewhere in the name. -/
def is_simple_enum_type (m : MapDesc) : Bool :=
  if m.hasGenericArgs then false
  else if primTypeNames.any (fun p => p == m.tyName) then false
  else if excludedSuffixes.any (fun suf => listEndsWith suf m.tyName) then false
  else if enumSuffixes.any (fun suf => listEndsWith suf m.tyName) ||
      listHasSegment "Fix".toList m.tyName then true
  else false

/-- The per-field value generator a strategy uses: `any::<T>()` over a
scalar type's full range, a generated byte vector of fixed length (for any
array type), or a pick from an enum's `valid_raw_values` cast to the raw
type. -/
inductive FieldGen
  | fullRange (ty : UbxTy)
  | byteVec (n : Nat)
  | fromValues (vs : List Nat) (ty : UbxTy)
  deriving DecidableEq

/-- `generate_strategy_for_type`: full range for scalar types, a fixed-size
byte vector for every array type (`vec(any::<u8>(), n)` for `[u8; n]` and
`any::<[u8; n]>()` for every other element type), `any::<u8>()` fallback. -/
def generate_strategy_for_type : UbxTy → FieldGen
  | .arr _ n => .byteVec n
  | .unknown => .fullRange .u8
  | t => .fullRange t

/-- `generate_strategy_for_field`: an enum-aware pick from
`valid_raw_values` when the field has a `map_type` passing the naming
heuristic; otherwise the plain type strategy. -/
def generate_strategy_for_field (f : PackField) : FieldGen :=
  match f.mapTy with
  | some m =>
      if is_simple_enum_type m then .fromValues m.valid_raw_values f.ty
      else generate_strategy_for_type f.ty
  | none => generate_strategy_for_type f.ty

/-- The values a per-field generator can produce.  A `fromValues` pick is
`values[i] as raw_ty`: some listed value truncated to the raw type. -/
def FieldGen.canGen : FieldGen → FieldVal → Prop
  | .fullRange t, v => hasTy v t = true
  | .byteVec n, v => hasTy v (.arr .u8 n) = true
  | .fromValues vs t, v =>
      (∃ x ∈ vs, v = .scalar (x % 2 ^ (8 * t.declWidth))) ∧ hasTy v t = true

/-- Maximum tuple size supported by proptest's Strategy impl
(`MAX_TUPLE_SIZE`). -/
def MAX_TUPLE_SIZE : Nat := 12

/-- A whole-payload strategy, as emitted: the fixed empty payload (schemas
with no fields), per-field generation mapped through the per-field
serializers, or a raw byte vector of fixed length. -/
inductive PayloadStrat
  | justEmpty
  | mapped (gens : List FieldGen) (tys : List UbxTy)
  | rawBytes (n : Nat)
  deriving DecidableEq

/-- Whether a strategy serializes generated field values through the
field-by-field encode path. -/
def PayloadStrat.isFieldWise : PayloadStrat → Bool
  | .mapped _ _ => true
  | _ => false

/-- The payloads a whole-payload strategy can produce. -/
def PayloadStrat.produces : PayloadStrat → List Nat → Prop
  | .justEmpty, p => p = []
  | .mapped gens tys, p =>
      ∃ vals, List.Forall₂ FieldGen.canGen gens vals ∧ p = serializeFields tys vals
  | .rawBytes n, p => p.length = n ∧ ∀ b ∈ p, b < 256

/-- The valid payload strategy `fuzz_payload_strategy` the generator emits:
`Just(Vec::new())` for empty schemas, otherwise per-field strategies (as
chosen by `generate_strategy_for_field`) mapped through the flat per-field
serializers — for more than `MAX_TUPLE_SIZE` fields the per-field strategies
are grouped into nested tuples and destructured back before serializing,
which leaves the value-level semantics unchanged (see the chunking
theorems). -/
def fuzz_payload_strategy (pack : PackDesc) : PayloadStrat :=
  if pack.fields.isEmpty then .justEmpty
  else .mapped (pack.fields.map generate_strategy_for_field)
    (pack.fields.map PackField.ty)

/-- The chaos payload strategy `fuzz_payload_chaos_strategy` the generator
emits: absent for empty schemas; for more than `MAX_TUPLE_SIZE` fields a raw
byte vector of the declared length (`proptest::collection::vec(any::<u8>(),
payload_len)`); otherwise full-range per-field strategies mapped through the
same flat serializers. -/
def fuzz_payload_chaos_strategy (pack : PackDesc) : Option PayloadStrat :=
  if pack.fields.isEmpty then none
  else if MAX_TUPLE_SIZE < pack.fields.length then
    some (.rawBytes pack.payloadLen.resolved)
  else
    some (.mapped (pack.fields.map (fun f => generate_strategy_for_type f.ty))
      (pack.fields.map PackField.ty))

/-- The frames `fuzz_frame_chaos_strategy` can produce: a chaos payload
wrapped by `build_ubx_frame` with the packet's class and id. -/
def fuzz_frame_chaos_produces (pack : PackDesc) (fr : List Nat) : Prop :=
  ∃ st p, fuzz_payload_chaos_strategy pack = some st ∧ st.produces p ∧
    fr = build_ubx_frame pack.msgClass pack.msgId p

/-- Splitting a list into chunks of `k` (the generator's `chunks(12)`),
with the list length as recursion fuel. -/
def chunksGo {α : Type} : Nat → Nat → List α → List (List α)
  | 0, _, _ => []
  | _, _, [] => []
  | fuel + 1, k, l => l.take k :: chunksGo fuel k (l.drop k)

def chunksOf {α : Type} (k : Nat) (l : List α) : List (List α) :=
  chunksGo l.length k l

/-- MON-RXBUF as the generator sees it: `pending: [u16; 6]`,
`usage: [u8; 6]`, `peak_usage: [u8; 6]`, fixed payload length 24. -/
def monRxbufPack : PackDesc where
  msgClass := 0x0A
  msgId := 0x07
  payloadLen := .fixedLen 24
  fields := [⟨.arr .u16 6, none⟩, ⟨.arr .u8 6, none⟩, ⟨.arr .u8 6, none⟩]

/-- NAV-PL as the generator sees it: 23 fields, fixed payload length 52. -/
def navPlPack : PackDesc where
  msgClass := 0x01
  msgId := 0x62
  payloadLen := .fixedLen 52
  fields :=
    [⟨.u8, none⟩, ⟨.u8, none⟩, ⟨.i8, none⟩, ⟨.u8, none⟩, ⟨.u8, none⟩,
     ⟨.u8, none⟩, ⟨.u8, none⟩, ⟨.u8, none⟩, ⟨.u8, none⟩, ⟨.u8, none⟩,
     ⟨.u8, none⟩, ⟨.u8, none⟩, ⟨.u32, none⟩, ⟨.u32, none⟩, ⟨.u32, none⟩,
     ⟨.u32, none⟩, ⟨.u32, none⟩, ⟨.u32, none⟩, ⟨.u32, none⟩, ⟨.u16, none⟩,
     ⟨.u16, none⟩, ⟨.u32, none⟩, ⟨.arr .u8 4, none⟩]

/-- An enum mapping whose type name passes the naming heuristic
(ends in "Type" and contains "Fix"), with the six valid raw values of
`GnssFixType`. -/
def gnssFixMap : MapDesc where
  tyName := "GnssFixType".toList
  hasGenericArgs := false
  valid_raw_values := [0, 1, 2, 3, 4, 5]

/-- A `u8` field mapped to `GnssFixType` (NAV-PVT's `fix_type`). -/
def gnssFixField : PackField where
  ty := .u8
  mapTy := some gnssFixMap

/-- An enum-mapped `u8` field whose mapped type name misses the naming
heuristic's whitelist: no recognized suffix and no "Fix" segment. -/
def navSbasServiceField : PackField where
  ty := .u8
  mapTy := some ⟨"NavSbasService".toList, false, [0, 1, 2, 3]⟩

theorem runningA_congr (xs : List Nat) : ∀ a b : Nat, a % 256 = b % 256 →
    runningA a xs = runningA b xs := by
  induction xs with
  | nil => intro a b _; rfl
  | cons x xs ih =>
    intro a b h
    have hx : (a + x) % 256 = (b + x) % 256 := by omega
    simp only [runningA, hx]
    rw [ih _ _ hx]

/-- The checksum loop started at `(a, b)` with `a b < 256`, in closed form:
the first component wraps `a` plus the byte sum, the second wraps `b` plus
the sum of the running first components. -/
theorem ckLoop_closed_form (seq : List Nat) : ∀ a b : Nat, a < 256 → b < 256 →
    ckLoop a b seq = ((a + seq.sum) % 256, (b + (runningA a seq).sum) % 256) := by
  induction seq with
  | nil =>
    intro a b ha hb
    simp [ckLoop, runningA, Nat.mod_eq_of_lt ha, Nat.mod_eq_of_lt hb]
  | cons x xs ih =>
    intro a b ha hb
    have ha' : (a + x) % 256 < 256 := Nat.mod_lt _ (by omega)
    have hb' : (b + (a + x) % 256) % 256 < 256 := Nat.mod_lt _ (by omega)
    rw [ckLoop, ih _ _ ha' hb']
    rw [Prod.mk.injEq]
    refine ⟨by rw [Nat.mod_add_mod, List.sum_cons]; ring_nf, ?_⟩
    rw [runningA_congr xs ((a + x) % 256) (a + x) (by omega)]
    · simp only [runningA, List.sum_cons]
      rw [Nat.mod_add_mod]
      ring_nf

theorem inits_eq_cons_tail (l : List Nat) : l.inits = [] :: l.inits.tail := by
  cases l <;> simp [List.inits_cons]

/-- `runningA a` is the list of wrapped sums `(a + Σ pre) % 256` over the
nonempty prefixes of the byte sequence. -/
theorem runningA_eq_inits (seq : List Nat) : ∀ a : Nat,
    runningA a seq = (seq.inits.tail).map (fun pre => (a + pre.sum) % 256) := by
  induction seq with
  | nil => intro a; simp [runningA, List.inits]
  | cons x xs ih =>
    intro a
    simp only [runningA, List.inits_cons, List.tail_cons, List.map_map]
    rw [inits_eq_cons_tail xs]
    simp only [List.map_cons, Function.comp_def, List.sum_cons, List.sum_nil, Nat.add_zero]
    rw [ih (a + x)]
    congr 1
    apply List.map_congr_left
    intro pre _
    ring_nf

/-- C3: the checksum returns the wrapping 8-bit sum of the sequence
class, id, length-low-byte, length-high-byte, payload bytes (sync bytes
absent), paired with the wrapping sum of the running first accumulator. -/
theorem calculate_checksum_fletcher (cls msgId : Nat) (p : List Nat) :
    calculate_checksum cls msgId p =
      (ckaSpec (checksummedBytes cls msgId p), ckbSpec (checksummedBytes cls msgId p)) := by
  have h1 : p.length % 65536 % 256 = p.length % 256 :=
    Nat.mod_mod_of_dvd _ (by norm_num)
  have h2 : p.length % 65536 / 256 = p.length / 256 % 256 := by
    rw [show (65536 : Nat) = 256 * 256 from rfl, Nat.mod_mul_right_div_self]
  rw [calculate_checksum, h1, h2]
  rw [ckLoop_closed_form _ 0 0 (by omega) (by omega), runningA_eq_inits]
  simp [ckaSpec, ckbSpec, checksummedBytes]

/-- C6: reference vector — class 0x01, id 0x07, empty payload gives the
checksummed sequence [0x01, 0x07, 0x00, 0x00] and checksum (0x08, 0x19). -/
theorem checksum_reference_vector :
    calculate_checksum 0x01 0x07 [] = (0x08, 0x19) ∧
      checksummedBytes 0x01 0x07 [] = [0x01, 0x07, 0x00, 0x00] := by
  decide

/-- The explicit loop of the helper equals a `foldl` of the same step. -/
theorem ckLoop_eq_foldl (l : List Nat) : ∀ a b : Nat,
    ckLoop a b l =
      l.foldl (fun ck byte => ((ck.1 + byte) % 256, (ck.2 + (ck.1 + byte) % 256) % 256)) (a, b) := by
  induction l with
  | nil => intro a b; rfl
  | cons x xs ih => intro a b; rw [ckLoop, List.foldl_cons, ih]

/-- C10: the standalone checksum of the generated test files, folded over the
test files' `frame_core` byte sequence, agrees with the shared helper
`calculate_checksum`. -/
theorem tests_checksum_eq_helper (cls msgId : Nat) (p : List Nat)
    (_h : p.length < 65536) :
    tests_calculate_checksum (test_frame_core cls msgId p) =
      calculate_checksum cls msgId p := by
  rw [tests_calculate_checksum, calculate_checksum, test_frame_core, ckLoop_eq_foldl]
  rfl

/-- Witness for C10 at class 0x0A, id 0x07 and a concrete payload. -/
theorem tests_checksum_eq_helper_witness :
    ([1, 2, 3] : List Nat).length < 65536 ∧
      tests_calculate_checksum (test_frame_core 0x0A 0x07 [1, 2, 3]) =
        calculate_checksum 0x0A 0x07 [1, 2, 3] :=
  ⟨by decide, tests_checksum_eq_helper 0x0A 0x07 [1, 2, 3] (by decide)⟩

/-- The two frame builders (shared helper and generated tests) agree. -/
theorem build_test_frame_eq (cls msgId : Nat) (p : List Nat) :
    build_test_frame cls msgId p = build_ubx_frame cls msgId p := by
  have h : tests_calculate_checksum (test_frame_core cls msgId p) =
      calculate_checksum cls msgId p := by
    rw [tests_calculate_checksum, calculate_checksum, test_frame_core, ckLoop_eq_foldl]
    rfl
  rw [build_test_frame, build_ubx_frame, h, test_frame_core]
  rfl

theorem build_ubx_frame_length (cls msgId : Nat) (p : List Nat) :
    (build_ubx_frame cls msgId p).length = 8 + p.length := by
  simp [build_ubx_frame]
  omega

theorem build_ubx_frame_drop6 (cls msgId : Nat) (p : List Nat) :
    (build_ubx_frame cls msgId p).drop 6 =
      p ++ [(calculate_checksum cls msgId p).1, (calculate_checksum cls msgId p).2] := rfl

theorem build_ubx_frame_payload_slice (cls msgId : Nat) (p : List Nat) :
    ((build_ubx_frame cls msgId p).drop 6).take p.length = p := by
  rw [build_ubx_frame_drop6]
  exact List.take_left p _

theorem build_ubx_frame_trailing (cls msgId : Nat) (p : List Nat) :
    (build_ubx_frame cls msgId p).drop (6 + p.length) =
      [(calculate_checksum cls msgId p).1, (calculate_checksum cls msgId p).2] := by
  rw [← List.drop_drop, build_ubx_frame_drop6]
  exact List.drop_left p _

theorem build_ubx_frame_checksum_slice (cls msgId : Nat) (p : List Nat) :
    ((build_ubx_frame cls msgId p).drop 2).take (4 + p.length) =
      [cls, msgId, p.length % 65536 % 256, p.length % 65536 / 256] ++ p := by
  have h : (build_ubx_frame cls msgId p).drop 2 =
      [cls, msgId, p.length % 65536 % 256, p.length % 65536 / 256] ++
        (p ++ [(calculate_checksum cls msgId p).1, (calculate_checksum cls msgId p).2]) := by
    rw [build_ubx_frame]
    rfl
  rw [h]
  have h4 : (4 : Nat) + p.length =
      ([cls, msgId, p.length % 65536 % 256, p.length % 65536 / 256] : List Nat).length
        + p.length := by simp
  rw [h4, List.take_append]
  rw [List.take_left]

/-- C4: the frame has length `8 + payload.len()`, starts with the sync bytes,
carries class, id and the little-endian `u16` length at offsets 2..6, the
payload unchanged at offsets 6..6+len, and ends with the checksum bytes. -/
theorem frame_structure (cls msgId : Nat) (p : List Nat) :
    (build_ubx_frame cls msgId p).length = 8 + p.length ∧
    (build_ubx_frame cls msgId p).take 2 = [0xB5, 0x62] ∧
    ((build_ubx_frame cls msgId p).drop 2).take 4 =
      [cls, msgId, p.length % 65536 % 256, p.length % 65536 / 256] ∧
    ((build_ubx_frame cls msgId p).drop 6).take p.length = p ∧
    (build_ubx_frame cls msgId p).drop (6 + p.length) =
      [(calculate_checksum cls msgId p).1, (calculate_checksum cls msgId p).2] :=
  ⟨build_ubx_frame_length cls msgId p, rfl, rfl,
   build_ubx_frame_payload_slice cls msgId p, build_ubx_frame_trailing cls msgId p⟩

theorem len_lo_eq (L : Nat) : L % 65536 % 256 = L % 256 :=
  Nat.mod_mod_of_dvd _ (by norm_num)

theorem len_hi_eq (L : Nat) : L % 65536 / 256 = L / 256 % 256 := by
  rw [show (65536 : Nat) = 256 * 256 from rfl, Nat.mod_mul_right_div_self]

theorem lenField_build (cls msgId : Nat) (p : List Nat) :
    lenField (build_ubx_frame cls msgId p) = p.length % 65536 := by
  show p.length % 65536 % 256 + 256 * (p.length % 65536 / 256) = p.length % 65536
  omega

/-- C9: the frame's length field and the length bytes fed into the checksum
both equal `payload.len()` modulo 2^16; hence for a payload of 65536 bytes
or more the length field no longer equals the payload byte count, although
every payload byte is still appended to the frame and checksummed. -/
theorem length_field_truncation (cls msgId : Nat) (p : List Nat) :
    lenField (build_ubx_frame cls msgId p) = p.length % 65536 ∧
    (checksummedBytes cls msgId p).getD 2 0 +
        256 * (checksummedBytes cls msgId p).getD 3 0 = p.length % 65536 ∧
    calculate_checksum cls msgId p = ckLoop 0 0 (checksummedBytes cls msgId p) ∧
    (65536 ≤ p.length →
      lenField (build_ubx_frame cls msgId p) ≠ p.length ∧
      ((build_ubx_frame cls msgId p).drop 6).take p.length = p ∧
      (checksummedBytes cls msgId p).drop 4 = p) := by
  refine ⟨lenField_build cls msgId p, ?_, ?_, ?_⟩
  · show p.length % 256 + 256 * (p.length / 256 % 256) = p.length % 65536
    omega
  · rw [calculate_checksum, checksummedBytes, len_lo_eq, len_hi_eq]
  · intro hge
    refine ⟨?_, build_ubx_frame_payload_slice cls msgId p, rfl⟩
    rw [lenField_build]
    have hlt := Nat.mod_lt p.length (show 0 < 65536 by omega)
    omega

/-- Witness for C9 at a concrete 65536-byte payload. -/
theorem length_field_truncation_witness :
    65536 ≤ (List.replicate 65536 (0 : Nat)).length ∧
      lenField (build_ubx_frame 0x0A 0x07 (List.replicate 65536 0)) ≠
        (List.replicate 65536 (0 : Nat)).length :=
  ⟨by rw [List.length_replicate],
   ((length_field_truncation 0x0A 0x07 (List.replicate 65536 0)).2.2.2
      (by rw [List.length_replicate])).1⟩

/-- Decoding a frame built by `build_ubx_frame` recovers class, id and
payload, for payloads below the `u16` length limit. -/
theorem decode_frame_build (cls msgId : Nat) (p : List Nat)
    (h : p.length < 65536) :
    decode_frame (build_ubx_frame cls msgId p) = some (cls, msgId, p) := by
  have hd45 : (build_ubx_frame cls msgId p).getD 4 0 +
      256 * (build_ubx_frame cls msgId p).getD 5 0 = p.length := by
    have hlb := lenField_build cls msgId p
    rw [lenField] at hlb
    omega
  rw [decode_frame, hd45]
  rw [if_pos]
  · rw [build_ubx_frame_payload_slice]
    rfl
  · refine ⟨rfl, rfl, ?_, ?_⟩
    · rw [build_ubx_frame_length]
    · rw [build_ubx_frame_trailing, build_ubx_frame_checksum_slice]
      rfl

/-- C7: for six `u16` "pending", six `u8` "usage" and six `u8` "peak_usage"
values, the MON-RXBUF payload is 24 bytes (little-endian `u16`s first, then
usage, then peak_usage), the wrapped frame is 32 bytes with bytes 0x0A and
0x07 at offsets 2 and 3, and decoding the frame reproduces the tuple. -/
theorem mon_rxbuf_roundtrip
    (p0 p1 p2 p3 p4 p5 u0 u1 u2 u3 u4 u5 k0 k1 k2 k3 k4 k5 : Nat)
    (hp0 : p0 < 65536) (hp1 : p1 < 65536) (hp2 : p2 < 65536)
    (hp3 : p3 < 65536) (hp4 : p4 < 65536) (hp5 : p5 < 65536) :
    (monRxbufToBytes [p0, p1, p2, p3, p4, p5] [u0, u1, u2, u3, u4, u5]
        [k0, k1, k2, k3, k4, k5]).length = 24 ∧
    (build_mon_rxbuf_frame [p0, p1, p2, p3, p4, p5] [u0, u1, u2, u3, u4, u5]
        [k0, k1, k2, k3, k4, k5]).length = 32 ∧
    (build_mon_rxbuf_frame [p0, p1, p2, p3, p4, p5] [u0, u1, u2, u3, u4, u5]
        [k0, k1, k2, k3, k4, k5]).getD 2 0 = 0x0A ∧
    (build_mon_rxbuf_frame [p0, p1, p2, p3, p4, p5] [u0, u1, u2, u3, u4, u5]
        [k0, k1, k2, k3, k4, k5]).getD 3 0 = 0x07 ∧
    decode_frame (build_mon_rxbuf_frame [p0, p1, p2, p3, p4, p5]
        [u0, u1, u2, u3, u4, u5] [k0, k1, k2, k3, k4, k5]) =
      some (0x0A, 0x07, monRxbufToBytes [p0, p1, p2, p3, p4, p5]
        [u0, u1, u2, u3, u4, u5] [k0, k1, k2, k3, k4, k5]) ∧
    decodeMonRxbuf (monRxbufToBytes [p0, p1, p2, p3, p4, p5]
        [u0, u1, u2, u3, u4, u5] [k0, k1, k2, k3, k4, k5]) =
      some ([p0, p1, p2, p3, p4, p5], [u0, u1, u2, u3, u4, u5],
        [k0, k1, k2, k3, k4, k5]) := by
  have hlen : (monRxbufToBytes [p0, p1, p2, p3, p4, p5] [u0, u1, u2, u3, u4, u5]
      [k0, k1, k2, k3, k4, k5]).length = 24 := rfl
  refine ⟨hlen, ?_, ?_, ?_, ?_, ?_⟩
  · rw [build_mon_rxbuf_frame, build_test_frame_eq, build_ubx_frame_length, hlen]
  · rw [build_mon_rxbuf_frame, build_test_frame_eq]
    rfl
  · rw [build_mon_rxbuf_frame, build_test_frame_eq]
    rfl
  · rw [build_mon_rxbuf_frame, build_test_frame_eq]
    exact decode_frame_build 0x0A 0x07 _ (by rw [hlen]; omega)
  · have h0 : p0 % 256 + 256 * (p0 / 256 % 256) = p0 := by omega
    have h1 : p1 % 256 + 256 * (p1 / 256 % 256) = p1 := by omega
    have h2 : p2 % 256 + 256 * (p2 / 256 % 256) = p2 := by omega
    have h3 : p3 % 256 + 256 * (p3 / 256 % 256) = p3 := by omega
    have h4 : p4 % 256 + 256 * (p4 / 256 % 256) = p4 := by omega
    have h5 : p5 % 256 + 256 * (p5 / 256 % 256) = p5 := by omega
    calc decodeMonRxbuf (monRxbufToBytes [p0, p1, p2, p3, p4, p5]
          [u0, u1, u2, u3, u4, u5] [k0, k1, k2, k3, k4, k5])
        = some ([p0 % 256 + 256 * (p0 / 256 % 256), p1 % 256 + 256 * (p1 / 256 % 256),
                 p2 % 256 + 256 * (p2 / 256 % 256), p3 % 256 + 256 * (p3 / 256 % 256),
                 p4 % 256 + 256 * (p4 / 256 % 256), p5 % 256 + 256 * (p5 / 256 % 256)],
                [u0, u1, u2, u3, u4, u5], [k0, k1, k2, k3, k4, k5]) := rfl
      _ = some ([p0, p1, p2, p3, p4, p5], [u0, u1, u2, u3, u4, u5],
                [k0, k1, k2, k3, k4, k5]) := by rw [h0, h1, h2, h3, h4, h5]

/-- Witness for C7 at a concrete tuple. -/
theorem mon_rxbuf_roundtrip_witness :
    (1000 : Nat) < 65536 ∧
      decodeMonRxbuf (monRxbufToBytes [1000, 2, 3, 4, 5, 6] [7, 8, 9, 10, 11, 12]
          [13, 14, 15, 16, 17, 18]) =
        some ([1000, 2, 3, 4, 5, 6], [7, 8, 9, 10, 11, 12],
          [13, 14, 15, 16, 17, 18]) :=
  ⟨by decide,
   (mon_rxbuf_roundtrip 1000 2 3 4 5 6 7 8 9 10 11 12 13 14 15 16 17 18
      (by decide) (by decide) (by decide) (by decide) (by decide)
      (by decide)).2.2.2.2.2⟩

theorem serializeField_length_type (t : UbxTy) (v : FieldVal)
    (h : FieldGen.canGen (generate_strategy_for_type t) v) :
    (serializeField t v).length = t.genWidth := by
  cases t <;> cases v <;>
    simp_all [generate_strategy_for_type, FieldGen.canGen, hasTy, serializeField,
      leBytes, UbxTy.genWidth, UbxTy.declWidth]

theorem serializeField_length_field (f : PackField) (v : FieldVal)
    (h : FieldGen.canGen (generate_strategy_for_field f) v) :
    (serializeField f.ty v).length = f.ty.genWidth := by
  obtain ⟨t, mt⟩ := f
  cases mt with
  | none => exact serializeField_length_type t v h
  | some m =>
    simp only [generate_strategy_for_field] at h
    by_cases hs : is_simple_enum_type m
    · rw [if_pos hs] at h
      obtain ⟨⟨x, hx, rfl⟩, hty⟩ := h
      cases t <;>
        simp_all [hasTy, serializeField, leBytes, UbxTy.genWidth, UbxTy.declWidth]
    · rw [if_neg hs] at h
      exact serializeField_length_type t v h

theorem serializeFields_length_type (fields : List PackField) :
    ∀ vals : List FieldVal,
    List.Forall₂ FieldGen.canGen
      (fields.map fun f => generate_strategy_for_type f.ty) vals →
    (serializeFields (fields.map PackField.ty) vals).length =
      (fields.map fun f => f.ty.genWidth).sum := by
  induction fields with
  | nil =>
    intro vals h
    cases h
    simp [serializeFields]
  | cons f fs ih =>
    intro vals h
    rw [List.map_cons] at h
    cases h with
    | cons hf hfs =>
      rename_i v vs
      rw [List.map_cons, List.map_cons, List.sum_cons]
      show (serializeField f.ty v ++ serializeFields (fs.map PackField.ty) vs).length = _
      rw [List.length_append, serializeField_length_type f.ty v hf, ih vs hfs]

theorem serializeFields_length_field (fields : List PackField) :
    ∀ vals : List FieldVal,
    List.Forall₂ FieldGen.canGen (fields.map generate_strategy_for_field) vals →
    (serializeFields (fields.map PackField.ty) vals).length =
      (fields.map fun f => f.ty.genWidth).sum := by
  induction fields with
  | nil =>
    intro vals h
    cases h
    simp [serializeFields]
  | cons f fs ih =>
    intro vals h
    rw [List.map_cons] at h
    cases h with
    | cons hf hfs =>
      rename_i v vs
      rw [List.map_cons, List.map_cons, List.sum_cons]
      show (serializeField f.ty v ++ serializeFields (fs.map PackField.ty) vs).length = _
      rw [List.length_append, serializeField_length_field f v hf, ih vs hfs]

theorem chaos_payload_length (pack : PackDesc) (st : PayloadStrat) (p : List Nat)
    (hst : fuzz_payload_chaos_strategy pack = some st) (hp : st.produces p) :
    p.length = pack.payloadLen.resolved ∨
      p.length = (pack.fields.map fun f => f.ty.genWidth).sum := by
  rw [fuzz_payload_chaos_strategy] at hst
  by_cases he : pack.fields.isEmpty
  · rw [if_pos he] at hst
    exact absurd hst (by simp)
  · rw [if_neg he] at hst
    by_cases hgt : MAX_TUPLE_SIZE < pack.fields.length
    · rw [if_pos hgt] at hst
      obtain rfl := Option.some.inj hst
      exact Or.inl hp.1
    · rw [if_neg hgt] at hst
      obtain rfl := Option.some.inj hst
      obtain ⟨vals, hv, rfl⟩ := hp
      exact Or.inr (serializeFields_length_type pack.fields vals hv)

theorem valid_payload_length (pack : PackDesc) (p : List Nat)
    (hp : (fuzz_payload_strategy pack).produces p) :
    p.length = (pack.fields.map fun f => f.ty.genWidth).sum := by
  rw [fuzz_payload_strategy] at hp
  by_cases he : pack.fields.isEmpty
  · rw [if_pos he] at hp
    obtain rfl : p = [] := hp
    have hnil : pack.fields = [] := List.isEmpty_iff.mp he
    rw [hnil]
    rfl
  · rw [if_neg he] at hp
    obtain ⟨vals, hv, rfl⟩ := hp
    exact serializeFields_length_field pack.fields vals hv

/-- C8: a frame built by `build_ubx_frame` self-verifies — its trailing two
bytes equal the checksum recomputed over its bytes at offsets
2..6+payload.len() — and consequently every frame produced by the chaos
frame strategy begins with the sync bytes, carries the schema's class and
id, has a length field consistent with its actual size, and carries a
matching checksum: chaos randomizes only field values, never the framing. -/
theorem frame_self_verifies :
    (∀ (cls msgId : Nat) (p : List Nat), p.length < 65536 →
      (build_ubx_frame cls msgId p).drop (6 + p.length) =
        [(ckLoop 0 0 (((build_ubx_frame cls msgId p).drop 2).take (4 + p.length))).1,
         (ckLoop 0 0 (((build_ubx_frame cls msgId p).drop 2).take (4 + p.length))).2]) ∧
    (∀ (pack : PackDesc) (fr : List Nat), fuzz_frame_chaos_produces pack fr →
      (pack.fields.map fun f => f.ty.genWidth).sum < 65536 →
      pack.payloadLen.resolved < 65536 →
      fr.take 2 = [0xB5, 0x62] ∧
      (fr.drop 2).take 2 = [pack.msgClass, pack.msgId] ∧
      lenField fr = fr.length - 8 ∧
      fr.drop (fr.length - 2) =
        [(ckLoop 0 0 ((fr.drop 2).take (fr.length - 4))).1,
         (ckLoop 0 0 ((fr.drop 2).take (fr.length - 4))).2]) := by
  constructor
  · intro cls msgId p _h
    rw [build_ubx_frame_checksum_slice, build_ubx_frame_trailing]
    rfl
  · intro pack fr hpr hg hres
    obtain ⟨st, p, hst, hp, rfl⟩ := hpr
    have hplen : p.length < 65536 := by
      rcases chaos_payload_length pack st p hst hp with h | h <;> omega
    refine ⟨rfl, rfl, ?_, ?_⟩
    · rw [lenField_build, build_ubx_frame_length]
      omega
    · rw [build_ubx_frame_length,
        show 8 + p.length - 2 = 6 + p.length from by omega,
        show 8 + p.length - 4 = 4 + p.length from by omega,
        build_ubx_frame_checksum_slice, build_ubx_frame_trailing]
      rfl

/-- Witness for C8: the concrete frame at class 0x0A, id 0x07, payload
[1, 2, 3], and a chaos frame of the 23-field NAV-PL schema. -/
theorem frame_self_verifies_witness :
    ([1, 2, 3] : List Nat).length < 65536 ∧
      (build_ubx_frame 0x0A 0x07 [1, 2, 3]).drop (6 + ([1, 2, 3] : List Nat).length) =
        [(ckLoop 0 0 (((build_ubx_frame 0x0A 0x07 [1, 2, 3]).drop 2).take
            (4 + ([1, 2, 3] : List Nat).length))).1,
         (ckLoop 0 0 (((build_ubx_frame 0x0A 0x07 [1, 2, 3]).drop 2).take
            (4 + ([1, 2, 3] : List Nat).length))).2] ∧
      fuzz_frame_chaos_produces navPlPack
        (build_ubx_frame navPlPack.msgClass navPlPack.msgId (List.replicate 52 0)) ∧
      (build_ubx_frame navPlPack.msgClass navPlPack.msgId
          (List.replicate 52 0)).take 2 = [0xB5, 0x62] := by
  have hprod : fuzz_frame_chaos_produces navPlPack
      (build_ubx_frame navPlPack.msgClass navPlPack.msgId (List.replicate 52 0)) := by
    refine ⟨.rawBytes 52, List.replicate 52 0, by decide, ⟨by decide, ?_⟩, rfl⟩
    intro b hb
    rw [List.eq_of_mem_replicate hb]
    omega
  exact ⟨by decide, frame_self_verifies.1 0x0A 0x07 [1, 2, 3] (by decide), hprod,
    (frame_self_verifies.2 navPlPack _ hprod (by decide) (by decide)).1⟩

/-- C1 (amended): for every nonempty schema the valid strategy maps the
per-field generators through the flat field-by-field serializers in
declaration order, and so does the chaos strategy when the schema has at
most `MAX_TUPLE_SIZE` fields, while a larger schema's chaos strategy is a
raw byte vector of the declared length; every valid payload is exactly the
sum of the per-field generated widths long, every chaos payload is that
long or the declared length, and whenever the generated widths sum to the
declared length (true for scalar and `[u8; n]` fields) every payload of
either strategy is exactly the declared length. -/
theorem strategy_payload_structure (pack : PackDesc) :
    (pack.fields.isEmpty = false →
      fuzz_payload_strategy pack =
        .mapped (pack.fields.map generate_strategy_for_field)
          (pack.fields.map PackField.ty)) ∧
    (pack.fields.isEmpty = false → pack.fields.length ≤ MAX_TUPLE_SIZE →
      fuzz_payload_chaos_strategy pack =
        some (.mapped (pack.fields.map fun f => generate_strategy_for_type f.ty)
          (pack.fields.map PackField.ty))) ∧
    (MAX_TUPLE_SIZE < pack.fields.length →
      fuzz_payload_chaos_strategy pack =
        some (.rawBytes pack.payloadLen.resolved)) ∧
    (∀ p, (fuzz_payload_strategy pack).produces p →
      p.length = (pack.fields.map fun f => f.ty.genWidth).sum) ∧
    (∀ st p, fuzz_payload_chaos_strategy pack = some st → st.produces p →
      p.length = pack.payloadLen.resolved ∨
        p.length = (pack.fields.map fun f => f.ty.genWidth).sum) ∧
    ((pack.fields.map fun f => f.ty.genWidth).sum = pack.payloadLen.resolved →
      (∀ p, (fuzz_payload_strategy pack).produces p →
        p.length = pack.payloadLen.resolved) ∧
      (∀ st p, fuzz_payload_chaos_strategy pack = some st → st.produces p →
        p.length = pack.payloadLen.resolved)) := by
  refine ⟨?_, ?_, ?_, ?_, ?_, ?_⟩
  · intro he
    rw [fuzz_payload_strategy, if_neg (by simp [he])]
  · intro he hle
    rw [fuzz_payload_chaos_strategy, if_neg (by simp [he]), if_neg (by omega)]
  · intro hgt
    have hne : ¬(pack.fields.isEmpty = true) := by
      intro hh
      rw [List.isEmpty_iff] at hh
      rw [hh] at hgt
      simp [MAX_TUPLE_SIZE] at hgt
    rw [fuzz_payload_chaos_strategy, if_neg hne, if_pos hgt]
  · exact fun p hp => valid_payload_length pack p hp
  · exact fun st p hst hp => chaos_payload_length pack st p hst hp
  · intro hw
    refine ⟨fun p hp => ?_, fun st p hst hp => ?_⟩
    · rw [valid_payload_length pack p hp, hw]
    · rcases chaos_payload_length pack st p hst hp with h | h
      · exact h
      · rw [h, hw]

/-- Witness for C1 (amended) at the 23-field NAV-PL schema (whose generated
widths sum to the declared length 52) and at the width-inconsistent
MON-RXBUF schema, whose valid strategy the structural part still covers. -/
theorem strategy_payload_structure_witness :
    MAX_TUPLE_SIZE < navPlPack.fields.length ∧
      (navPlPack.fields.map fun f => f.ty.genWidth).sum =
        navPlPack.payloadLen.resolved ∧
      monRxbufPack.fields.isEmpty = false ∧
      fuzz_payload_chaos_strategy navPlPack =
        some (.rawBytes navPlPack.payloadLen.resolved) ∧
      (∀ p, (fuzz_payload_strategy navPlPack).produces p →
        p.length = navPlPack.payloadLen.resolved) ∧
      fuzz_payload_strategy monRxbufPack =
        .mapped (monRxbufPack.fields.map generate_strategy_for_field)
          (monRxbufPack.fields.map PackField.ty) :=
  ⟨by decide, by decide, by decide,
   (strategy_payload_structure navPlPack).2.2.1 (by decide),
   ((strategy_payload_structure navPlPack).2.2.2.2.2 (by decide)).1,
   (strategy_payload_structure monRxbufPack).1 (by decide)⟩

/-- C1 is false as stated: for the MON-RXBUF schema, a fixed-length schema
of declared length 24, the valid payload strategy can produce an 18-byte
payload — the generator emits a 6-byte `any::<[u8; 6]>()` strategy and a
byte-copy serializer for the 12-byte `[u16; 6]` field. -/
theorem strategy_payload_counterexample :
    monRxbufPack.payloadLen = .fixedLen 24 ∧
    (fuzz_payload_strategy monRxbufPack).produces (List.replicate 18 0) ∧
    (List.replicate 18 0).length ≠ 24 := by
  have hstrat : fuzz_payload_strategy monRxbufPack =
      .mapped [.byteVec 6, .byteVec 6, .byteVec 6]
        [.arr .u16 6, .arr .u8 6, .arr .u8 6] := by decide
  refine ⟨rfl, ?_, by decide⟩
  rw [hstrat]
  refine ⟨[.arr (List.replicate 6 0), .arr (List.replicate 6 0),
    .arr (List.replicate 6 0)], ?_, by decide⟩
  exact List.Forall₂.cons rfl (List.Forall₂.cons rfl
    (List.Forall₂.cons rfl List.Forall₂.nil))

/-- C2 (amended): for an enum-mapped field whose mapped type passes the
`is_simple_enum_type` naming heuristic and whose valid raw values fit the
raw type, every value the valid strategy can produce is one of the
mapping's `valid_raw_values`; the chaos strategy for any non-array field
ranges over the raw type's entire range, so it can produce every in-range
raw value — in particular any raw value outside the valid set. -/
theorem enum_strategy_separation (f : PackField) (m : MapDesc)
    (hm : f.mapTy = some m) (hs : is_simple_enum_type m = true)
    (hb : ∀ x ∈ m.valid_raw_values, x < 2 ^ (8 * f.ty.declWidth)) :
    (∀ v, (generate_strategy_for_field f).canGen v →
      ∃ x ∈ m.valid_raw_values, v = .scalar x) ∧
    (∀ r, r < 2 ^ (8 * f.ty.declWidth) → f.ty.isArr = false →
      FieldGen.canGen (generate_strategy_for_type f.ty) (.scalar r)) := by
  obtain ⟨t, mt⟩ := f
  obtain rfl : mt = some m := hm
  constructor
  · intro v hv
    simp only [generate_strategy_for_field] at hv
    rw [if_pos hs] at hv
    obtain ⟨⟨x, hx, rfl⟩, -⟩ := hv
    exact ⟨x, hx, by rw [Nat.mod_eq_of_lt (hb x hx)]⟩
  · intro r hr ha
    cases t <;>
      simp_all [generate_strategy_for_type, FieldGen.canGen, hasTy,
        UbxTy.isArr, UbxTy.declWidth]

/-- Witness for C2 (amended) at NAV-PVT's `fix_type` field mapped to
`GnssFixType`. -/
theorem enum_strategy_separation_witness :
    gnssFixField.mapTy = some gnssFixMap ∧
    is_simple_enum_type gnssFixMap = true ∧
    (∀ x ∈ gnssFixMap.valid_raw_values,
      x < 2 ^ (8 * gnssFixField.ty.declWidth)) ∧
    FieldGen.canGen (generate_strategy_for_type gnssFixField.ty) (.scalar 200) :=
  ⟨rfl, by decide, by decide,
   (enum_strategy_separation gnssFixField gnssFixMap rfl (by decide)
      (by decide)).2 200 (by decide) (by decide)⟩

/-- C2 is false as stated: `navSbasServiceField` is enum-mapped, but its
mapped type name misses the naming heuristic's whitelist, so its valid
strategy is the plain full-range strategy and can produce the raw value
200, which is outside the mapping's `valid_raw_values = [0, 1, 2, 3]`. -/
theorem enum_strategy_counterexample :
    navSbasServiceField.mapTy =
      some ⟨"NavSbasService".toList, false, [0, 1, 2, 3]⟩ ∧
    generate_strategy_for_field navSbasServiceField = .fullRange .u8 ∧
    FieldGen.canGen (generate_strategy_for_field navSbasServiceField)
      (.scalar 200) ∧
    (200 : Nat) ∉ [0, 1, 2, 3] := by
  have hg : generate_strategy_for_field navSbasServiceField = .fullRange .u8 := by
    decide
  refine ⟨rfl, hg, ?_, by decide⟩
  rw [hg]
  show hasTy (.scalar 200) .u8 = true
  decide

theorem chunksGo_flatten {α : Type} (k : Nat) (hk : 0 < k) :
    ∀ (fuel : Nat) (l : List α), l.length ≤ fuel →
      (chunksGo fuel k l).flatten = l := by
  intro fuel
  induction fuel with
  | zero =>
    intro l hl
    have hnil : l = [] := List.eq_nil_of_length_eq_zero (by omega)
    subst hnil
    rfl
  | succ n ih =>
    intro l hl
    cases l with
    | nil => rfl
    | cons x xs =>
      show ((x :: xs).take k :: chunksGo n k ((x :: xs).drop k)).flatten = x :: xs
      rw [List.flatten_cons, ih ((x :: xs).drop k) ?_]
      · exact List.take_append_drop k (x :: xs)
      · rw [List.length_drop]
        simp only [List.length_cons] at hl ⊢
        omega

theorem chunksGo_sizes {α : Type} (k fuel : Nat) :
    ∀ (l : List α) (c : List α), c ∈ chunksGo fuel k l → c.length ≤ k := by
  induction fuel with
  | zero =>
    intro l c hc
    simp [chunksGo] at hc
  | succ n ih =>
    intro l c hc
    cases l with
    | nil => simp [chunksGo] at hc
    | cons x xs =>
      rw [show chunksGo (n + 1) k (x :: xs) =
        (x :: xs).take k :: chunksGo n k ((x :: xs).drop k) from rfl] at hc
      rcases List.mem_cons.mp hc with rfl | hmem
      · rw [List.length_take]
        omega
      · exact ih _ _ hmem

theorem chunksOf_flatten {α : Type} (k : Nat) (hk : 0 < k) (l : List α) :
    (chunksOf k l).flatten = l :=
  chunksGo_flatten k hk l.length l (Nat.le_refl _)

/-- C5: for a schema with more fields than the combinator arity limit,
grouping the fields (and correspondingly their generated values) into
chunks of at most `MAX_TUPLE_SIZE`, flattening, and serializing yields
byte-for-byte the same payload as flat field-by-field encoding of the same
field values; every chunk holds at most `MAX_TUPLE_SIZE` fields. -/
theorem chunking_transparent (tys : List UbxTy) (vals : List FieldVal)
    (_h : MAX_TUPLE_SIZE < tys.length) :
    serializeFields ((chunksOf MAX_TUPLE_SIZE tys).flatten)
        ((chunksOf MAX_TUPLE_SIZE vals).flatten) = serializeFields tys vals ∧
    (chunksOf MAX_TUPLE_SIZE vals).flatten = vals ∧
    ∀ c ∈ chunksOf MAX_TUPLE_SIZE tys, c.length ≤ MAX_TUPLE_SIZE := by
  have hk : 0 < MAX_TUPLE_SIZE := by decide
  refine ⟨?_, chunksOf_flatten _ hk vals,
    fun c hc => chunksGo_sizes MAX_TUPLE_SIZE _ _ c hc⟩
  rw [chunksOf_flatten _ hk, chunksOf_flatten _ hk]

/-- Witness for C5 at the 23-field NAV-PL schema's field types. -/
theorem chunking_transparent_witness :
    MAX_TUPLE_SIZE < (navPlPack.fields.map PackField.ty).length ∧
      (chunksOf MAX_TUPLE_SIZE (List.replicate 23 (FieldVal.scalar 0))).flatten =
        List.replicate 23 (FieldVal.scalar 0) :=
  ⟨by decide,
   (chunking_transparent (navPlPack.fields.map PackField.ty)
      (List.replicate 23 (FieldVal.scalar 0)) (by decide)).2.1⟩
